import Mathlib

set_option linter.unusedSectionVars false

/-!
# Verification of the `ADA_star` planner
  (`src/networkx/algorithms/shortest_paths/ada_star.py`)

This file is a shallow embedding of the Anytime Dynamic A* planner class
`ADA_star`.  Python float costs (including `math.inf`) are modelled as
`WithTop α` over an arbitrary linear ordered commutative ring `α` (the
algorithm adds, multiplies, compares and takes minima of costs, but never
divides, so every theorem below holds uniformly for rational or real
weights; concrete failing inputs are instantiated at `α = ℤ`).  Python
dicts that are iterated (the `OPEN` dict, the `INCONS` dict) are modelled
as association lists / lists preserving insertion order, because the
source's `smallest_key` linear scan and the re-priming loops depend on dict
iteration order (which in Python is insertion order).  Sets whose iteration
order is never observed (`CLOSED`, `visited`) are also lists, used only
through membership.

Modelling assumptions, stated once here:
* nodes are natural numbers (`Node := ℕ`); the graph is given by an
  explicit node list, an adjacency-list function (mirroring `G[s].keys()`
  order) and a weight function;
* the planner-state functions `g`, `rhs` are total functions
  `Node → WithTop α` (the source initialises the dicts on all of
  `G.nodes()`);
* the main development's `cost` uses a total weight function
  `w : Node → Node → α`, i.e. it models runs on graphs in which every edge
  carries the designated weight attribute.  The faithful attribute lookup
  `G[s][s_prime][self.weight]`, which can fail when the attribute is unset,
  is modelled separately as `cost_attr` (returning `Option α`, `none` being
  the `KeyError`), next to a spec-following variant `cost_spec_default`.
-/

namespace AdaStar

variable {α : Type} [LinearOrderedCommRing α]

/-- Nodes of the external graph. -/
abbrev Node : Type := Nat

/-- Costs: weights or `+∞` (Python `math.inf`). -/
abbrev Cost (α : Type) : Type := WithTop α

/-- A priority key `[primary, secondary]` as built by `ADA_star.key`. -/
abbrev Key (α : Type) : Type := Cost α × Cost α

/-- The whole mutable state of one `ADA_star` object.  `OPEN` is an
association list in Python-dict insertion order; `CLOSED`, `INCONS` and
`visited` are lists used as sets (`INCONS` keeps insertion order because the
source iterates it when re-priming).  The source field `self.initialize` is
called `init_flag` here. -/
structure PState (α : Type) where
  s_start : Node
  s_goal : Node
  adj : Node → List Node
  w : Node → Node → α
  heursistic : Node → Node → α
  epsilon : α
  g : Node → Cost α
  rhs : Node → Cost α
  OPEN : List (Node × Key α)
  CLOSED : List Node
  INCONS : List Node
  visited : List Node
  init_flag : Bool

/-- `ADA_star.key` (lines 199–203): inflated key when `g(s) > rhs(s)`,
plain key otherwise. -/
def key (st : PState α) (s : Node) : Key α :=
  if st.g s > st.rhs s then
    (st.rhs s + ((st.epsilon * st.heursistic st.s_start s : α) : Cost α), st.rhs s)
  else
    (st.g s + ((st.heursistic st.s_start s : α) : Cost α), st.g s)

/-- `ADA_star.key_lt` (lines 206–212). -/
def key_lt (key1 key2 : Key α) : Bool :=
  if key1.1 < key2.1 then true
  else if key1.1 = key2.1 ∧ key1.2 < key2.2 then true
  else false

/-- One step of the `smallest_key` linear scan (lines 222–228): the fold
state is `(min_index, min_primary, min_secondary)`. -/
def smallest_key_step (acc : Option Node × Cost α × Cost α) (p : Node × Key α) :
    Option Node × Cost α × Cost α :=
  if p.2.1 ≤ acc.2.1 then
    if p.2.2 < acc.2.2 then (some p.1, p.2.1, p.2.2)
    else (some p.1, p.2.1, acc.2.2)
  else acc

/-- `ADA_star.smallest_key` (lines 215–230), scanning `OPEN` in insertion
order starting from `(None, inf, inf)`. -/
def smallest_key (OPEN : List (Node × Key α)) : Option Node × Key α :=
  let r := OPEN.foldl smallest_key_step (none, (⊤ : Cost α), (⊤ : Cost α))
  (r.1, (r.2.1, r.2.2))

/-- `ADA_star.cost` (lines 233–234) under the all-edges-weighted modelling
assumption: the stored weight of the ordered pair `(s, s_prime)`. -/
def cost (st : PState α) (s s_prime : Node) : α := st.w s s_prime

/-- `ADA_star.get_neighbor` (lines 237–238): `G[s].keys()` in adjacency
order. -/
def get_neighbor (st : PState α) (s : Node) : List Node := st.adj s

/-- Python-dict assignment `d[s] = v` on an association list: update in
place when the key is present, append otherwise. -/
def dictInsert (l : List (Node × Key α)) (s : Node) (v : Key α) :
    List (Node × Key α) :=
  if l.any (fun p => p.1 = s) then
    l.map (fun p => if p.1 = s then (s, v) else p)
  else l ++ [(s, v)]

/-- Python-dict `d.pop(s)` (guarded by `s in d` in the source). -/
def dictPop (l : List (Node × Key α)) (s : Node) : List (Node × Key α) :=
  l.filter (fun p => decide (p.1 ≠ s))

/-- Python-set `add` / dict `d[s] = 0` on a list used as a set: position is
kept when the element is already present, otherwise it is appended. -/
def setAdd (l : List Node) (s : Node) : List Node :=
  if s ∈ l then l else l ++ [s]

/-- The `rhs` recomputation of `update_state` (lines 185–187):
`rhs[s] = inf`, then `rhs[s] = min(rhs[s], g[x] + cost(s, x))` over the
neighbors of `s`. -/
def rhs_recompute (st : PState α) (s : Node) : Cost α :=
  (get_neighbor st s).foldl
    (fun acc x => min acc (st.g x + ((cost st s x : α) : Cost α))) ⊤

/-- The guarded `rhs` rewrite at the head of `update_state` (lines
184–187). -/
def reconcile_rhs (st : PState α) (s : Node) : PState α :=
  if s ≠ st.s_goal then
    { st with rhs := Function.update st.rhs s (rhs_recompute st s) }
  else st

/-- The requeueing tail of `update_state` (lines 189–196), applied to the
state produced by `reconcile_rhs`. -/
def requeue (st2 : PState α) (s : Node) : PState α :=
  if st2.g s ≠ st2.rhs s then
    if s ∉ st2.CLOSED then
      { st2 with OPEN := dictInsert st2.OPEN s (key st2 s) }
    else
      { st2 with INCONS := setAdd st2.INCONS s }
  else st2

/-- `ADA_star.update_state` (lines 182–196). -/
def update_state (st : PState α) (s : Node) : PState α :=
  let st1 := reconcile_rhs st s
  requeue { st1 with OPEN := dictPop st1.OPEN s } s

/-- Lines 153–154: move every `INCONS` state into `OPEN` with a fresh
key. -/
def promote_incons (st : PState α) : PState α :=
  { st with OPEN := st.INCONS.foldl (fun o s => dictInsert o s (key st s)) st.OPEN }

/-- Line 155: `INCONS = dict()`. -/
def clear_incons (st : PState α) : PState α := { st with INCONS := [] }

/-- Lines 156–158: recompute the stored key of every open state. -/
def refresh_keys (st : PState α) : PState α :=
  { st with OPEN := st.OPEN.map (fun (p : Node × Key α) => (p.1, key st p.1)) }

/-- Line 159: `CLOSED = set()`. -/
def clear_closed (st : PState α) : PState α := { st with CLOSED := [] }

/-- The re-priming block shared by the non-first calls of
`compute_or_improve_path` (lines 152–159) and the tail of `update_graph`
(lines 272–279): move `INCONS` into `OPEN` with fresh keys, clear `INCONS`,
refresh every open key, clear `CLOSED`. -/
def reprime (st : PState α) : PState α :=
  clear_closed (refresh_keys (clear_incons (promote_incons st)))

/-- Lines 167–168 of the main loop: remove the popped state from `OPEN`
and record it as visited. -/
def pop_and_visit (st : PState α) (s : Node) : PState α :=
  { st with OPEN := dictPop st.OPEN s, visited := setAdd st.visited s }

/-- The overconsistent branch of the main loop (lines 170–174):
`g[s] = rhs[s]`, close `s`, reconcile the neighbors. -/
def expand_over (st1 : PState α) (s : Node) : PState α :=
  let st2 := { st1 with g := Function.update st1.g s (st1.rhs s),
                        CLOSED := setAdd st1.CLOSED s }
  (get_neighbor st2 s).foldl update_state st2

/-- The underconsistent branch of the main loop (lines 175–179):
`g[s] = inf`, reconcile the neighbors and `s` itself. -/
def expand_under (st1 : PState α) (s : Node) : PState α :=
  let st2 := { st1 with g := Function.update st1.g s ⊤ }
  let st3 := (get_neighbor st2 s).foldl update_state st2
  update_state st3 s

/-- The body of the main loop of `compute_or_improve_path` after the break
test (lines 167–179), for the popped state `s`. -/
def expand (st : PState α) (s : Node) : PState α :=
  let st1 := pop_and_visit st s
  if st1.g s > st1.rhs s then expand_over st1 s else expand_under st1 s

/-- The `while True` loop of `compute_or_improve_path` (lines 161–179),
with explicit fuel.  `none` models a run that does not return within the
given fuel (including the `KeyError` crash of `OPEN.pop(None)` on an empty
open dict, which the source would hit in the same situation). -/
def compute_loop : Nat → PState α → Option (PState α)
  | 0, _ => none
  | n + 1, st =>
    let r := smallest_key st.OPEN
    if key_lt r.2 (key st st.s_start) = false ∧
        st.rhs st.s_start = st.g st.s_start then
      some st
    else
      match r.1 with
      | none => none
      | some s => compute_loop n (expand st s)

/-- `ADA_star.compute_or_improve_path` (lines 140–179), with fuel for the
main loop. -/
def compute_or_improve_path (fuel : Nat) (st : PState α) (epsilon : α) :
    Option (PState α) :=
  let st1 :=
    if st.init_flag then { st with epsilon := epsilon, init_flag := false }
    else reprime { st with epsilon := epsilon }
  compute_loop fuel st1

/-- Python `min(neighbours, key=f)`: the first minimizer of `f` in list
order, `none` on the empty list (where the source raises `ValueError`). -/
def argmin_first (l : List Node) (f : Node → Cost α) : Option Node :=
  match l with
  | [] => none
  | x :: xs => some (xs.foldl (fun b y => if f y < f b then y else b) x)

/-- The `while True` loop of `extract_path` (lines 250–256), with fuel.
`none` models both fuel exhaustion (the source loops forever) and the
`ValueError` of `min` on an empty neighbor list. -/
def extract_loop (adj : Node → List Node) (w : Node → Node → α)
    (g : Node → Cost α) (s_goal : Node) :
    Nat → Node → List Node → Option (List Node)
  | 0, _, _ => none
  | n + 1, s, path =>
    match argmin_first (adj s) (fun x => g x + ((w s x : α) : Cost α)) with
    | none => none
    | some s' =>
      if s' = s_goal then some (path ++ [s'])
      else extract_loop adj w g s_goal n s' (path ++ [s'])

/-- `ADA_star.extract_path` (lines 241–258). -/
def extract_path (st : PState α) (fuel : Nat) : Option (List Node) :=
  extract_loop st.adj st.w st.g st.s_goal fuel st.s_start [st.s_start]

/-- The symmetric weight write of the change loop of `update_graph`
(lines 268–269). -/
def write_weight (st : PState α) (c : Node × Node × α) : PState α :=
  { st with w := fun a b =>
    if (a = c.1 ∧ b = c.2.1) ∨ (a = c.2.1 ∧ b = c.1) then c.2.2 else st.w a b }

/-- One iteration of the change loop of `update_graph` (lines 267–271):
write the new weight on both ordered pairs of the edge, then reconcile
both endpoints. -/
def apply_change (st : PState α) (c : Node × Node × α) : PState α :=
  update_state (update_state (write_weight st c) c.1) c.2.1

/-- `ADA_star.update_graph` (lines 261–279): apply each `[a, b, c]` change
symmetrically to the stored weights, reconcile both endpoints, then
re-prime. -/
def update_graph (st : PState α) (changes : List (Node × Node × α)) : PState α :=
  reprime (changes.foldl apply_change st)

/-- The `NodeNotFound` message of the constructor (line 113):
`f"Either source {s_start} or target {s_goal} is not in G"`. -/
def node_not_found_msg (s_start s_goal : Node) : String :=
  "Either source " ++ toString s_start ++ " or target " ++ toString s_goal ++
    " is not in G"

/-- The planner state built by `ADA_star.__init__` (lines 116–136) just
before the constructor's call to `compute_or_improve_path`. -/
def init_state (s_start s_goal : Node) (adj : Node → List Node)
    (w : Node → Node → α) (heursistic : Node → Node → α)
    (initial_epsilon : α) : PState α :=
  let st0 : PState α :=
    { s_start := s_start, s_goal := s_goal, adj := adj, w := w,
      heursistic := heursistic, epsilon := initial_epsilon,
      g := fun _ => ⊤,
      rhs := fun s => if s = s_goal then (0 : Cost α) else ⊤,
      OPEN := [], CLOSED := [], INCONS := [], visited := [],
      init_flag := true }
  { st0 with OPEN := [(s_goal, key st0 s_goal)] }

/-- `ADA_star.__init__` (lines 112–137): reject a start or goal that is not
a graph node with the `NodeNotFound` message, before any search state is
built; otherwise build the state and run the first
`compute_or_improve_path(self.epsilon)`. -/
def ada_star_init (s_start s_goal : Node) (nodes : List Node)
    (adj : Node → List Node) (w : Node → Node → α)
    (heursistic : Node → Node → α) (initial_epsilon : α) (fuel : Nat) :
    Except String (Option (PState α)) :=
  if s_start ∉ nodes ∨ s_goal ∉ nodes then
    Except.error (node_not_found_msg s_start s_goal)
  else
    Except.ok (compute_or_improve_path fuel
      (init_state s_start s_goal adj w heursistic initial_epsilon)
      initial_epsilon)

/-- The faithful edge-cost lookup of `ADA_star.cost` (line 234),
`self.G[s][s_prime][self.weight]`: the weight-attribute dictionary of the
edge is read at the attribute key, and `none` models the `KeyError` raised
when the attribute is unset on that edge. -/
def cost_attr (wattr : Node → Node → Option α) (s s_prime : Node) : Option α :=
  wattr s s_prime

/-- Modelled from the spec: the docstring of `ADA_star.__init__`
(lines 47–51) says that when the edge has no weight attribute "the weight of
the edge is assumed to be one"; this definition follows those words, to be
compared with `cost_attr`. -/
def cost_spec_default (wattr : Node → Node → Option α) (s s_prime : Node) : α :=
  (wattr s s_prime).getD 1

/-- Modelled from the spec: the total weight of a path, as in
`nx.path_weight` used by the docstring examples (sum of the stored weights
of consecutive pairs). -/
def path_weight (w : Node → Node → α) : List Node → α
  | a :: b :: rest => w a b + path_weight w (b :: rest)
  | _ => 0

/-- Modelled from the spec: a list of nodes is a path of the graph when
every consecutive pair is an adjacency edge. -/
def is_path (adj : Node → List Node) : List Node → Bool
  | a :: b :: rest => decide (b ∈ adj a) && is_path adj (b :: rest)
  | _ => true

/-! ## Concrete instances used by the counterexamples and failing inputs -/

/-- Five-node undirected example graph (nodes `0`..`4`, start `0`, goal
`4`): edges `0-1` (2), `1-2` (2), `2-4` (2), `1-4` (20), `0-3` (5), `3-4`
(10).  Adjacency lists are in the order networkx would hand them out after
the corresponding insertions. -/
def ex6adj : Node → List Node
  | 0 => [1, 3]
  | 1 => [0, 2, 4]
  | 2 => [1, 4]
  | 3 => [0, 4]
  | 4 => [1, 2, 3]
  | _ => []

/-- Symmetric weights of the five-node example. -/
def ex6w : Node → Node → ℤ
  | 0, 1 => 2 | 1, 0 => 2
  | 1, 2 => 2 | 2, 1 => 2
  | 2, 4 => 2 | 4, 2 => 2
  | 1, 4 => 20 | 4, 1 => 20
  | 0, 3 => 5 | 3, 0 => 5
  | 3, 4 => 10 | 4, 3 => 10
  | _, _ => 0

/-- Heuristic of the five-node example (an arbitrary caller-supplied
estimator; only `h(0, ·)` is ever read). -/
def ex6h : Node → Node → ℤ
  | 0, 0 => 30
  | 0, 2 => 19
  | _, _ => 0

/-- The five-node example's constructor state (`initial_epsilon = 1`). -/
def ex6init : PState ℤ := init_state 0 4 ex6adj ex6w ex6h 1

/-- The five-node example after the constructor's first
`compute_or_improve_path(1)` (32 loop iterations are ample; the run takes
6). -/
def ex6run : Option (PState ℤ) := compute_or_improve_path 32 ex6init 1

/-- The path extracted after the constructor call on the five-node
example. -/
def ex6path1 : Option (List Node) := ex6run.bind fun st => extract_path st 10

/-- The path extracted after a second `compute_or_improve_path(1)` with no
intervening graph change on the five-node example. -/
def ex6path2 : Option (List Node) :=
  ex6run.bind fun st => (compute_or_improve_path 32 st 1).bind fun st2 =>
    extract_path st2 10

/-- Unreachable-goal example: nodes `0`, `1`, `2`; single edge `0-1`
(weight 1); start `0`, goal `2` (isolated). -/
def exUadj : Node → List Node
  | 0 => [1]
  | 1 => [0]
  | _ => []

/-- Constructor state of the unreachable-goal example (zero heuristic,
`initial_epsilon = 1`). -/
def exUinit : PState ℤ := init_state 0 2 exUadj (fun _ _ => 1) (fun _ _ => 0) 1

/-- The unreachable-goal example after the constructor's
`compute_or_improve_path` (it terminates in 2 iterations). -/
def exUrun : Option (PState ℤ) := compute_or_improve_path 5 exUinit 1

/-- The state the unreachable-goal run converges to. -/
def exUst : PState ℤ := exUrun.getD exUinit

/-- Zero-weight example for the bound property: nodes `0`, `1`, `2`; edges
`1-0` (weight 1) and `1-2` (weight 0), with `2` listed before `0` among the
neighbors of `1`; start `2`, goal `0`.  The zero heuristic is consistent
and non-overestimating, and all weights are non-negative. -/
def exZadj : Node → List Node
  | 0 => [1]
  | 1 => [2, 0]
  | 2 => [1]
  | _ => []

/-- Symmetric weights of the zero-weight example. -/
def exZw : Node → Node → ℤ
  | 0, 1 => 1 | 1, 0 => 1
  | _, _ => 0

/-- Constructor state of the zero-weight example (`epsilon = 1`). -/
def exZinit : PState ℤ := init_state 2 0 exZadj exZw (fun _ _ => 0) 1

/-- The zero-weight example after the constructor's
`compute_or_improve_path(1)` returns. -/
def exZrun : Option (PState ℤ) := compute_or_improve_path 10 exZinit 1

/-- The state the zero-weight run converges to. -/
def exZst : PState ℤ := exZrun.getD exZinit

/-- `OPEN` contents exercising the `smallest_key` tie-break: two open
states with keys `[1, 3]` and `[1, 4]`, in this insertion order. -/
def ex3OPEN : List (Node × Key ℤ) :=
  [(0, ((1 : Cost ℤ), (3 : Cost ℤ))), (1, ((1 : Cost ℤ), (4 : Cost ℤ)))]

/-- A weight-attribute table with the attribute unset on every edge. -/
def ex7wattr : Node → Node → Option ℤ := fun _ _ => none

/-- The queue-membership invariant that actually holds of the code: `OPEN`
is disjoint from `CLOSED`, `OPEN` is disjoint from `INCONS`, and every
`INCONS` state is (still) in `CLOSED`. -/
def Inv (st : PState α) : Prop :=
  (∀ p ∈ st.OPEN, p.1 ∉ st.CLOSED) ∧
  (∀ p ∈ st.OPEN, p.1 ∉ st.INCONS) ∧
  (∀ s ∈ st.INCONS, s ∈ st.CLOSED)

/-- Every stored `OPEN` value is the key of its state computed on the
current tables (the source stores `self.key(s)` at insertion time and the
inputs of a stored key never change while the entry sits in `OPEN`). -/
def Fresh (st : PState α) : Prop :=
  ∀ p ∈ st.OPEN, p.2 = key st p.1

/-- A state on which `compute_or_improve_path` would stop immediately: the
break test of the main loop (line 164) holds. -/
def BreakCond (st : PState α) : Prop :=
  key_lt (smallest_key st.OPEN).2 (key st st.s_start) = false ∧
    st.rhs st.s_start = st.g st.s_start

/-- A minimal planner state with empty queues, used to instantiate the
invariant lemmas. -/
def c5wst : PState ℤ :=
  { s_start := 0, s_goal := 1, adj := fun _ => [], w := fun _ _ => 0,
    heursistic := fun _ _ => 0, epsilon := 1,
    g := fun _ => ⊤, rhs := fun _ => ⊤,
    OPEN := [], CLOSED := [], INCONS := [], visited := [],
    init_flag := false }

/-- A concrete overconsistent planner state (`g ≡ 2 > rhs ≡ 1`) used to
instantiate key lemmas. -/
def c4st : PState ℤ :=
  { s_start := 0, s_goal := 1, adj := fun _ => [], w := fun _ _ => 0,
    heursistic := fun _ _ => 0, epsilon := 1,
    g := fun _ => (2 : Cost ℤ), rhs := fun _ => (1 : Cost ℤ),
    OPEN := [], CLOSED := [], INCONS := [], visited := [],
    init_flag := false }

/-- A concrete consistent planner state (`g ≡ rhs ≡ 1`, heuristic `5`,
`epsilon = 7`) used to instantiate key lemmas: the inflated key would be
`[36, 1]`, the uninflated one is `[6, 1]`. -/
def c10st : PState ℤ :=
  { s_start := 0, s_goal := 1, adj := fun _ => [], w := fun _ _ => 0,
    heursistic := fun _ _ => 5, epsilon := 7,
    g := fun _ => (1 : Cost ℤ), rhs := fun _ => (1 : Cost ℤ),
    OPEN := [], CLOSED := [], INCONS := [], visited := [],
    init_flag := false }

/-- The state returned by a second `compute_or_improve_path(1)` on the
unreachable-goal example (whose first call leaves `INCONS` empty). -/
def c6wres : PState ℤ := (compute_or_improve_path 3 exUst 1).getD exUst

/-!
## Theorems

The claim theorems and their helper lemmas.
-/

/-- C3: refuted as stated — on the open dict `{0: [1, 3], 1: [1, 4]}` (in
insertion order) `smallest_key` returns the state `1` paired with the key
`[1, 3]`: the returned state is the *last* state tying on the primary
component, not the one with the lexicographically smallest key, and the
returned key is state `0`'s key, not state `1`'s own stored key `[1, 4]`
(which is strictly larger under `key_lt`).  This contradicts the function's
own comment ("if the first elements are equal, the one with the lowest
second element is chosen"). -/
theorem c3_smallest_key_tie_break :
    smallest_key ex3OPEN = (some 1, ((1 : Cost ℤ), (3 : Cost ℤ))) ∧
    ex3OPEN.lookup 1 = some ((1 : Cost ℤ), (4 : Cost ℤ)) ∧
    key_lt ((1 : Cost ℤ), (3 : Cost ℤ)) ((1 : Cost ℤ), (4 : Cost ℤ)) = true := by
  refine ⟨by decide, by decide, by decide⟩

/-- C4: `key` returns `[rhs + ε·h(start,s), rhs]` exactly when
`g(s) > rhs(s)` and `[g + h(start,s), g]` otherwise, and `key_lt` is the
strict lexicographic order on pairs. -/
theorem c4_key_and_key_lt_spec : ∀ (st : PState α) (s : Node) (key1 key2 : Key α),
    (st.g s > st.rhs s →
      key st s = (st.rhs s + ((st.epsilon * st.heursistic st.s_start s : α) : Cost α),
        st.rhs s)) ∧
    (¬ st.g s > st.rhs s →
      key st s = (st.g s + ((st.heursistic st.s_start s : α) : Cost α), st.g s)) ∧
    (key_lt key1 key2 = true ↔
      key1.1 < key2.1 ∨ (key1.1 = key2.1 ∧ key1.2 < key2.2)) := by
  intro st s key1 key2
  refine ⟨fun h => ?_, fun h => ?_, ?_⟩
  · unfold key; rw [if_pos h]
  · unfold key; rw [if_neg h]
  · unfold key_lt; split_ifs with h1 h2 <;> simp_all

/-- Witness for C4 at the concrete state `c4st` (overconsistent, `rhs = 1`,
`ε·h = 0`) and the tying keys `[1, 2]`, `[1, 3]`. -/
theorem c4_witness :
    key c4st 0 = ((1 : Cost ℤ), (1 : Cost ℤ)) ∧
    key_lt ((1 : Cost ℤ), (2 : Cost ℤ)) ((1 : Cost ℤ), (3 : Cost ℤ)) = true := by
  constructor
  · exact ((c4_key_and_key_lt_spec c4st 0 ((1 : Cost ℤ), (2 : Cost ℤ))
      ((1 : Cost ℤ), (3 : Cost ℤ))).1 (by decide)).trans (by decide)
  · exact ((c4_key_and_key_lt_spec c4st 0 ((1 : Cost ℤ), (2 : Cost ℤ))
      ((1 : Cost ℤ), (3 : Cost ℤ))).2.2).mpr (by decide)

/-- C10: a consistent state (`g(s) = rhs(s)`) always takes the uninflated
branch of `key`; the ε-inflated key is used only under the strict
inequality `g(s) > rhs(s)`.  (The break test of the main loop calls this
same `key` on `s_start`, so the start's key is uninflated once the start is
consistent.) -/
theorem c10_consistent_key_uninflated : ∀ (st : PState α) (s : Node),
    st.g s = st.rhs s →
    key st s = (st.g s + ((st.heursistic st.s_start s : α) : Cost α), st.g s) := by
  intro st s h
  unfold key
  rw [if_neg]
  rw [h]
  exact lt_irrefl _

/-- Witness for C10 at the concrete consistent state `c10st`: the key is
the uninflated `[1 + 5, 1]`, not the inflated `[1 + 7·5, 1]`. -/
theorem c10_witness : key c10st 0 = ((6 : Cost ℤ), (1 : Cost ℤ)) :=
  (c10_consistent_key_uninflated c10st 0 (by decide)).trans (by decide)

/-- C7: refuted behaviour of the code on an edge whose weight attribute is
unset — the lookup `G[s][s_prime][self.weight]` fails (a `KeyError`,
modelled by `none`) instead of producing the documented default weight `1`
(`cost_spec_default`). -/
theorem c7_missing_weight_errors :
    cost_attr ex7wattr 0 1 = none ∧ cost_spec_default ex7wattr 0 1 = 1 ∧
    cost_attr ex7wattr 0 1 ≠ some (cost_spec_default ex7wattr 0 1) :=
  ⟨rfl, rfl, by decide⟩

/-- C5, counterexample: after the constructor's own
`compute_or_improve_path(1)` on the five-node example, state `1` is a
member of `INCONS` *and* of `CLOSED` at the same time, refuting the claimed
mutual exclusion of the three sets. -/
theorem c5_incons_closed_overlap :
    (ex6run.map fun st => (decide (1 ∈ st.INCONS), decide (1 ∈ st.CLOSED))) =
      some (true, true) := by
  rfl

/-- C6, counterexample: on the five-node example a second
`compute_or_improve_path` with the same `ε = 1` and no intervening
`update_graph` changes the extracted path from `[0, 3, 4]` (weight 15) to
`[0, 1, 2, 4]` (weight 6), because the second call promotes the deferred
`INCONS` state `1` into `OPEN` and continues the search. -/
theorem c6_second_call_changes_path :
    ex6path1 = some [0, 3, 4] ∧ ex6path2 = some [0, 1, 2, 4] ∧
    ex6path1 ≠ ex6path2 := by
  refine ⟨by rfl, by rfl, by rw [show ex6path1 = some [0, 3, 4] from rfl,
    show ex6path2 = some [0, 1, 2, 4] from rfl]; decide⟩

/-- C2: on the unreachable-goal example, `compute_or_improve_path`
terminates with `g(start) = +∞`, as claimed — but the subsequent
`extract_path` does not fail with an "unreachable" error: it bounces
between the states `0` and `1` forever and never returns (for every fuel
bound the loop is still running), refuting the claimed error behaviour. -/
theorem c2_unreachable_extract_never_returns :
    exUrun = some exUst ∧ exUst.g 0 = ⊤ ∧ ∀ n, extract_path exUst n = none := by
  refine ⟨by rfl, by rfl, ?_⟩
  have h0 : ∀ (n : Nat) (path : List Node),
      extract_loop exUst.adj exUst.w exUst.g 2 (n + 1) 0 path =
        extract_loop exUst.adj exUst.w exUst.g 2 n 1 (path ++ [1]) :=
    fun n path => rfl
  have h1 : ∀ (n : Nat) (path : List Node),
      extract_loop exUst.adj exUst.w exUst.g 2 (n + 1) 1 path =
        extract_loop exUst.adj exUst.w exUst.g 2 n 0 (path ++ [0]) :=
    fun n path => rfl
  have main : ∀ n : Nat,
      (∀ path, extract_loop exUst.adj exUst.w exUst.g 2 n 0 path = none) ∧
      (∀ path, extract_loop exUst.adj exUst.w exUst.g 2 n 1 path = none) := by
    intro n
    induction n with
    | zero => exact ⟨fun _ => rfl, fun _ => rfl⟩
    | succ n ih =>
      exact ⟨fun path => (h0 n path).trans (ih.2 _),
             fun path => (h1 n path).trans (ih.1 _)⟩
  intro n
  exact (main n).1 [0]

/-- C1: refuted as stated — on the zero-weight example all edge weights are
non-negative, the zero heuristic is consistent and non-overestimating,
`ε = 1`, and `compute_or_improve_path` returns with the start consistent at
its true distance-to-goal (`g(2) = rhs(2) = 1`); a start-goal path
`[2, 1, 0]` of weight 1 exists, yet `extract_path` never returns any path
at all: the greedy descent ties at the zero-weight edge `1-2` and bounces
between `1` and `2` forever, so no path of weight `≤ ε ×` (shortest-path
weight) is produced. -/
theorem c1_zero_weight_no_path :
    exZrun = some exZst ∧
    exZst.g 2 = (1 : Cost ℤ) ∧ exZst.rhs 2 = (1 : Cost ℤ) ∧
    is_path exZadj [2, 1, 0] = true ∧ path_weight exZw [2, 1, 0] = 1 ∧
    ∀ n, extract_path exZst n = none := by
  refine ⟨by rfl, by rfl, by rfl, by decide, by decide, ?_⟩
  have h2 : ∀ (n : Nat) (path : List Node),
      extract_loop exZst.adj exZst.w exZst.g 0 (n + 1) 2 path =
        extract_loop exZst.adj exZst.w exZst.g 0 n 1 (path ++ [1]) :=
    fun n path => rfl
  have h1 : ∀ (n : Nat) (path : List Node),
      extract_loop exZst.adj exZst.w exZst.g 0 (n + 1) 1 path =
        extract_loop exZst.adj exZst.w exZst.g 0 n 2 (path ++ [2]) :=
    fun n path => rfl
  have main : ∀ n : Nat,
      (∀ path, extract_loop exZst.adj exZst.w exZst.g 0 n 2 path = none) ∧
      (∀ path, extract_loop exZst.adj exZst.w exZst.g 0 n 1 path = none) := by
    intro n
    induction n with
    | zero => exact ⟨fun _ => rfl, fun _ => rfl⟩
    | succ n ih =>
      exact ⟨fun path => (h2 n path).trans (ih.2 _),
             fun path => (h1 n path).trans (ih.1 _)⟩
  intro n
  exact (main n).1 [2]

/-- C8: a constructor call whose start or goal is not a node of the graph
returns the `NodeNotFound` error before any search state is built, and the
error message contains the printed name of the start and of the goal — in
particular of whichever of them is missing. -/
theorem c8_node_not_found : ∀ (s_start s_goal : Node) (nodes : List Node)
    (adj : Node → List Node) (w : Node → Node → α) (h : Node → Node → α)
    (eps : α) (fuel : Nat),
    s_start ∉ nodes ∨ s_goal ∉ nodes →
    ada_star_init s_start s_goal nodes adj w h eps fuel =
      Except.error (node_not_found_msg s_start s_goal) ∧
    (toString s_start).data <:+: (node_not_found_msg s_start s_goal).data ∧
    (toString s_goal).data <:+: (node_not_found_msg s_start s_goal).data := by
  intro s_start s_goal nodes adj w h eps fuel hmiss
  refine ⟨?_, ?_, ?_⟩
  · unfold ada_star_init
    rw [if_pos hmiss]
  · unfold node_not_found_msg
    simp only [String.data_append, List.append_assoc]
    exact ⟨"Either source ".data,
      (" or target ".data ++ ((toString s_goal).data ++ " is not in G".data)),
      by simp [List.append_assoc]⟩
  · unfold node_not_found_msg
    simp only [String.data_append, List.append_assoc]
    exact ⟨"Either source ".data ++ ((toString s_start).data ++ " or target ".data),
      " is not in G".data, by simp [List.append_assoc]⟩

/-- Witness for C8: start `5` is not a node of the one-node graph `[0]`. -/
theorem c8_witness :
    ada_star_init 5 0 [0] (fun _ => []) (fun _ _ => (0 : ℤ)) (fun _ _ => 0) 1 1 =
      Except.error (node_not_found_msg 5 0) ∧
    (toString (5 : Node)).data <:+: (node_not_found_msg 5 0).data ∧
    (toString (0 : Node)).data <:+: (node_not_found_msg 5 0).data :=
  c8_node_not_found 5 0 [0] (fun _ => []) (fun _ _ => (0 : ℤ)) (fun _ _ => 0) 1 1
    (Or.inl (by decide))

/-- Field-preservation facts for `reconcile_rhs`: it rewrites `rhs`
only. -/
theorem reconcile_rhs_core (st : PState α) (s : Node) :
    (reconcile_rhs st s).g = st.g ∧ (reconcile_rhs st s).epsilon = st.epsilon ∧
    (reconcile_rhs st s).visited = st.visited ∧ (reconcile_rhs st s).w = st.w ∧
    (reconcile_rhs st s).s_start = st.s_start ∧
    (reconcile_rhs st s).s_goal = st.s_goal ∧
    (reconcile_rhs st s).adj = st.adj ∧
    (reconcile_rhs st s).heursistic = st.heursistic ∧
    (reconcile_rhs st s).init_flag = st.init_flag ∧
    (reconcile_rhs st s).CLOSED = st.CLOSED ∧
    (reconcile_rhs st s).OPEN = st.OPEN ∧
    (reconcile_rhs st s).INCONS = st.INCONS := by
  unfold reconcile_rhs
  split_ifs <;> simp

/-- Field-preservation facts for `requeue`: it rewrites `OPEN` and
`INCONS` only. -/
theorem requeue_core (st : PState α) (s : Node) :
    (requeue st s).g = st.g ∧ (requeue st s).epsilon = st.epsilon ∧
    (requeue st s).visited = st.visited ∧ (requeue st s).w = st.w ∧
    (requeue st s).s_start = st.s_start ∧
    (requeue st s).s_goal = st.s_goal ∧
    (requeue st s).adj = st.adj ∧
    (requeue st s).heursistic = st.heursistic ∧
    (requeue st s).init_flag = st.init_flag ∧
    (requeue st s).CLOSED = st.CLOSED ∧
    (requeue st s).rhs = st.rhs := by
  unfold requeue
  split_ifs <;> simp

/-- Field-preservation facts for `update_state`: it rewrites `rhs`,
`OPEN` and `INCONS` only. -/
theorem update_state_core (st : PState α) (s : Node) :
    (update_state st s).g = st.g ∧ (update_state st s).epsilon = st.epsilon ∧
    (update_state st s).visited = st.visited ∧ (update_state st s).w = st.w ∧
    (update_state st s).s_start = st.s_start ∧
    (update_state st s).s_goal = st.s_goal ∧
    (update_state st s).adj = st.adj ∧
    (update_state st s).heursistic = st.heursistic ∧
    (update_state st s).init_flag = st.init_flag ∧
    (update_state st s).CLOSED = st.CLOSED := by
  obtain ⟨rg, re, rv, rw', rs, rgo, ra, rh, ri, rc, _, _⟩ := reconcile_rhs_core st s
  obtain ⟨qg, qe, qv, qw, qs, qgo, qa, qh, qi, qc, _⟩ :=
    requeue_core { reconcile_rhs st s with OPEN := dictPop (reconcile_rhs st s).OPEN s } s
  exact ⟨qg.trans rg, qe.trans re, qv.trans rv, qw.trans rw', qs.trans rs,
    qgo.trans rgo, qa.trans ra, qh.trans rh, qi.trans ri, qc.trans rc⟩

/-- Field-preservation facts for `reprime`: it rewrites `OPEN` only, and
clears `INCONS` and `CLOSED`. -/
theorem reprime_core (st : PState α) :
    (reprime st).g = st.g ∧ (reprime st).rhs = st.rhs ∧
    (reprime st).epsilon = st.epsilon ∧ (reprime st).visited = st.visited ∧
    (reprime st).w = st.w ∧ (reprime st).s_start = st.s_start ∧
    (reprime st).s_goal = st.s_goal ∧ (reprime st).adj = st.adj ∧
    (reprime st).heursistic = st.heursistic ∧
    (reprime st).init_flag = st.init_flag ∧
    (reprime st).INCONS = [] ∧ (reprime st).CLOSED = [] := by
  unfold reprime clear_closed refresh_keys clear_incons promote_incons
  simp

/-- Field-preservation facts for one `apply_change` step: it rewrites the
weights, `rhs`, `OPEN` and `INCONS` only. -/
theorem apply_change_core (st : PState α) (c : Node × Node × α) :
    (apply_change st c).g = st.g ∧ (apply_change st c).epsilon = st.epsilon ∧
    (apply_change st c).visited = st.visited ∧
    (apply_change st c).s_start = st.s_start ∧
    (apply_change st c).s_goal = st.s_goal ∧
    (apply_change st c).adj = st.adj ∧
    (apply_change st c).heursistic = st.heursistic ∧
    (apply_change st c).init_flag = st.init_flag := by
  obtain ⟨ug, ue, uv, uw, us, ugo, ua, uh, ui, _⟩ := update_state_core
    (update_state (write_weight st c) c.1) c.2.1
  obtain ⟨vg, ve, vv, vw, vs, vgo, va, vh, vi, _⟩ := update_state_core
    (write_weight st c) c.1
  exact ⟨ug.trans vg, ue.trans ve, uv.trans vv, us.trans vs, ugo.trans vgo,
    ua.trans va, uh.trans vh, ui.trans vi⟩

/-- Field preservation through the per-change fold of `update_graph`. -/
theorem foldl_apply_change_core (changes : List (Node × Node × α)) :
    ∀ st : PState α,
    (changes.foldl apply_change st).g = st.g ∧
    (changes.foldl apply_change st).epsilon = st.epsilon ∧
    (changes.foldl apply_change st).visited = st.visited ∧
    (changes.foldl apply_change st).s_start = st.s_start ∧
    (changes.foldl apply_change st).s_goal = st.s_goal ∧
    (changes.foldl apply_change st).adj = st.adj ∧
    (changes.foldl apply_change st).heursistic = st.heursistic ∧
    (changes.foldl apply_change st).init_flag = st.init_flag := by
  induction changes with
  | nil => intro st; exact ⟨rfl, rfl, rfl, rfl, rfl, rfl, rfl, rfl⟩
  | cons c rest ih =>
    intro st
    simp only [List.foldl_cons]
    obtain ⟨hg, he, hv, hs, hgo, ha, hh, hi⟩ := ih (apply_change st c)
    obtain ⟨ug, ue, uv, us, ugo, ua, uh, ui⟩ := apply_change_core st c
    exact ⟨hg.trans ug, he.trans ue, hv.trans uv, hs.trans us,
      hgo.trans ugo, ha.trans ua, hh.trans uh, hi.trans ui⟩

/-- C9: neither `update_state` nor `update_graph` (nor, by construction,
the read-only `extract_path`) changes any entry of the `g` table — only
the main loop of `compute_or_improve_path` does; these entry points also
leave `epsilon`, `visited` and the start/goal alone, and `update_state`
leaves the stored weights alone. -/
theorem c9_g_frame : ∀ (st : PState α) (s : Node) (changes : List (Node × Node × α)),
    (update_state st s).g = st.g ∧ (update_graph st changes).g = st.g ∧
    (update_state st s).epsilon = st.epsilon ∧
    (update_graph st changes).epsilon = st.epsilon ∧
    (update_state st s).visited = st.visited ∧
    (update_graph st changes).visited = st.visited ∧
    (update_state st s).w = st.w ∧
    (update_state st s).s_start = st.s_start ∧
    (update_graph st changes).s_start = st.s_start ∧
    (update_state st s).s_goal = st.s_goal ∧
    (update_graph st changes).s_goal = st.s_goal := by
  intro st s changes
  obtain ⟨ug, ue, uv, uw, us, ugo, _, _, _, _⟩ := update_state_core st s
  obtain ⟨fg, fe, fv, fs, fgo, _, _, _⟩ := foldl_apply_change_core changes st
  obtain ⟨rg, _, re, rv, _, rs, rgo, _, _, _, _, _⟩ :=
    reprime_core (changes.foldl apply_change st)
  exact ⟨ug, rg.trans fg, ue, re.trans fe, uv, rv.trans fv, uw, us,
    rs.trans fs, ugo, rgo.trans fgo⟩

/-- Membership in a popped association list. -/
theorem mem_dictPop {l : List (Node × Key α)} {s : Node} {p : Node × Key α} :
    p ∈ dictPop l s ↔ p ∈ l ∧ p.1 ≠ s := by
  simp [dictPop]

/-- Membership in an association list after a Python-dict assignment. -/
theorem mem_dictInsert {l : List (Node × Key α)} {s : Node} {v : Key α}
    {p : Node × Key α} :
    p ∈ dictInsert l s v → p = (s, v) ∨ (p ∈ l ∧ p.1 ≠ s) := by
  unfold dictInsert
  split_ifs with h
  · intro hp
    rcases List.mem_map.mp hp with ⟨q, hq, hqe⟩
    by_cases hqs : q.1 = s
    · left
      rw [← hqe, if_pos hqs]
    · right
      rw [← hqe, if_neg hqs]
      exact ⟨hq, hqs⟩
  · intro hp
    rcases List.mem_append.mp hp with h1 | h1
    · right
      refine ⟨h1, fun hps => h ?_⟩
      exact List.any_eq_true.mpr ⟨p, h1, by simp [hps]⟩
    · left
      simpa using h1

/-- Membership after a Python-set `add`. -/
theorem mem_setAdd {l : List Node} {s x : Node} :
    x ∈ setAdd l s ↔ x ∈ l ∨ x = s := by
  unfold setAdd
  split_ifs with h
  · constructor
    · exact Or.inl
    · rintro (hx | rfl)
      · exact hx
      · exact h
  · simp

/-- `requeue` preserves the queue-membership invariant when the state to
requeue is no longer in `OPEN`. -/
theorem inv_requeue (A : PState α) (s : Node) (hA : Inv A)
    (hs : ∀ p ∈ A.OPEN, p.1 ≠ s) : Inv (requeue A s) := by
  obtain ⟨a1, a2, a3⟩ := hA
  unfold requeue
  by_cases hg : A.g s ≠ A.rhs s
  · rw [if_pos hg]
    by_cases hc : s ∉ A.CLOSED
    · rw [if_pos hc]
      refine ⟨?_, ?_, a3⟩
      · intro p hp
        rcases mem_dictInsert hp with hpe | ⟨hpl, _⟩
        · rw [hpe]
          exact hc
        · exact a1 p hpl
      · intro p hp
        rcases mem_dictInsert hp with hpe | ⟨hpl, _⟩
        · rw [hpe]
          exact fun hin => hc (a3 s hin)
        · exact a2 p hpl
    · rw [if_neg hc]
      refine ⟨a1, ?_, ?_⟩
      · intro p hp
        rw [mem_setAdd]
        rintro (hin | heq)
        · exact a2 p hp hin
        · exact hs p hp heq
      · intro x hx
        rcases mem_setAdd.mp hx with hin | rfl
        · exact a3 x hin
        · exact not_not.mp hc
  · rw [if_neg hg]
    exact ⟨a1, a2, a3⟩

/-- `update_state` preserves the queue-membership invariant. -/
theorem inv_update_state (st : PState α) (s : Node) (h : Inv st) :
    Inv (update_state st s) := by
  obtain ⟨h1, h2, h3⟩ := h
  obtain ⟨_, _, _, _, _, _, _, _, _, rc, ro, ri⟩ := reconcile_rhs_core st s
  have hAopen : ({ reconcile_rhs st s with
      OPEN := dictPop (reconcile_rhs st s).OPEN s } : PState α).OPEN =
      dictPop st.OPEN s := by
    rw [show ({ reconcile_rhs st s with
      OPEN := dictPop (reconcile_rhs st s).OPEN s } : PState α).OPEN =
      dictPop (reconcile_rhs st s).OPEN s from rfl, ro]
  have hAinv : Inv ({ reconcile_rhs st s with
      OPEN := dictPop (reconcile_rhs st s).OPEN s } : PState α) := by
    refine ⟨?_, ?_, ?_⟩
    · intro p hp
      rw [hAopen] at hp
      rw [show ({ reconcile_rhs st s with
        OPEN := dictPop (reconcile_rhs st s).OPEN s } : PState α).CLOSED =
        (reconcile_rhs st s).CLOSED from rfl, rc]
      exact h1 p (mem_dictPop.mp hp).1
    · intro p hp
      rw [hAopen] at hp
      rw [show ({ reconcile_rhs st s with
        OPEN := dictPop (reconcile_rhs st s).OPEN s } : PState α).INCONS =
        (reconcile_rhs st s).INCONS from rfl, ri]
      exact h2 p (mem_dictPop.mp hp).1
    · intro x hx
      rw [show ({ reconcile_rhs st s with
        OPEN := dictPop (reconcile_rhs st s).OPEN s } : PState α).INCONS =
        (reconcile_rhs st s).INCONS from rfl, ri] at hx
      rw [show ({ reconcile_rhs st s with
        OPEN := dictPop (reconcile_rhs st s).OPEN s } : PState α).CLOSED =
        (reconcile_rhs st s).CLOSED from rfl, rc]
      exact h3 x hx
  refine inv_requeue _ s hAinv ?_
  intro p hp
  rw [hAopen] at hp
  exact (mem_dictPop.mp hp).2

/-- Folding `update_state` over a node list preserves the invariant. -/
theorem inv_foldl_update_state (l : List Node) :
    ∀ st : PState α, Inv st → Inv (l.foldl update_state st) := by
  induction l with
  | nil => exact fun st h => h
  | cons x xs ih =>
    intro st h
    simp only [List.foldl_cons]
    exact ih _ (inv_update_state st x h)

/-- The overconsistent branch preserves the invariant when the expanded
state has already left `OPEN`. -/
theorem inv_expand_over (B : PState α) (s : Node) (hB : Inv B)
    (hs : ∀ p ∈ B.OPEN, p.1 ≠ s) : Inv (expand_over B s) := by
  obtain ⟨b1, b2, b3⟩ := hB
  refine inv_foldl_update_state _ _ ⟨?_, ?_, ?_⟩
  · intro p hp
    have hp' : p ∈ B.OPEN := hp
    show p.1 ∉ setAdd B.CLOSED s
    rw [mem_setAdd]
    rintro (hcl | heq)
    · exact b1 p hp' hcl
    · exact hs p hp' heq
  · intro p hp
    have hp' : p ∈ B.OPEN := hp
    show p.1 ∉ B.INCONS
    exact b2 p hp'
  · intro x hx
    have hx' : x ∈ B.INCONS := hx
    show x ∈ setAdd B.CLOSED s
    exact mem_setAdd.mpr (Or.inl (b3 x hx'))

/-- The underconsistent branch preserves the invariant. -/
theorem inv_expand_under (B : PState α) (s : Node) (hB : Inv B) :
    Inv (expand_under B s) := by
  obtain ⟨b1, b2, b3⟩ := hB
  refine inv_update_state _ _ (inv_foldl_update_state _ _ ⟨?_, ?_, ?_⟩)
  · intro p hp
    have hp' : p ∈ B.OPEN := hp
    show p.1 ∉ B.CLOSED
    exact b1 p hp'
  · intro p hp
    have hp' : p ∈ B.OPEN := hp
    show p.1 ∉ B.INCONS
    exact b2 p hp'
  · intro x hx
    have hx' : x ∈ B.INCONS := hx
    show x ∈ B.CLOSED
    exact b3 x hx'

/-- The loop body `expand` preserves the invariant. -/
theorem inv_expand (st : PState α) (s : Node) (h : Inv st) :
    Inv (expand st s) := by
  obtain ⟨h1, h2, h3⟩ := h
  have hB : Inv (pop_and_visit st s) := by
    refine ⟨?_, ?_, ?_⟩
    · intro p hp
      have hp' : p ∈ dictPop st.OPEN s := hp
      show p.1 ∉ st.CLOSED
      exact h1 p (mem_dictPop.mp hp').1
    · intro p hp
      have hp' : p ∈ dictPop st.OPEN s := hp
      show p.1 ∉ st.INCONS
      exact h2 p (mem_dictPop.mp hp').1
    · intro x hx
      have hx' : x ∈ st.INCONS := hx
      show x ∈ st.CLOSED
      exact h3 x hx'
  have hs : ∀ p ∈ (pop_and_visit st s).OPEN, p.1 ≠ s := by
    intro p hp
    have hp' : p ∈ dictPop st.OPEN s := hp
    exact (mem_dictPop.mp hp').2
  show Inv (if (pop_and_visit st s).g s > (pop_and_visit st s).rhs s then
    expand_over (pop_and_visit st s) s else expand_under (pop_and_visit st s) s)
  by_cases hgr : (pop_and_visit st s).g s > (pop_and_visit st s).rhs s
  · rw [if_pos hgr]
    exact inv_expand_over _ _ hB hs
  · rw [if_neg hgr]
    exact inv_expand_under _ _ hB

/-- `reprime` establishes the invariant outright (it clears `CLOSED` and
`INCONS`). -/
theorem inv_reprime (st : PState α) : Inv (reprime st) :=
  ⟨fun _ _ => List.not_mem_nil _,
   fun _ _ => List.not_mem_nil _,
   fun _ hs => absurd hs (List.not_mem_nil _)⟩

/-- The main loop preserves the invariant. -/
theorem inv_compute_loop :
    ∀ (n : Nat) (st st' : PState α), Inv st → compute_loop n st = some st' →
      Inv st' := by
  intro n
  induction n with
  | zero => intro st st' _ heq; cases heq
  | succ n ih =>
    intro st st' h heq
    unfold compute_loop at heq
    by_cases hb : key_lt (smallest_key st.OPEN).2 (key st st.s_start) = false ∧
        st.rhs st.s_start = st.g st.s_start
    · rw [if_pos hb] at heq
      cases heq
      exact h
    · rw [if_neg hb] at heq
      rcases hsk : (smallest_key st.OPEN).1 with _ | s
      · rw [hsk] at heq
        cases heq
      · rw [hsk] at heq
        exact ih _ _ (inv_expand st s h) heq

/-- C5, amended: what the code maintains is that `OPEN` is disjoint from
`CLOSED`, `OPEN` is disjoint from `INCONS`, and every `INCONS` state is
*inside* `CLOSED` (rather than excluded from it): this invariant is
preserved by `update_state`, holds after every `reprime`, and is carried
from call to return by `compute_or_improve_path`. -/
theorem c5_amended_invariant :
    (∀ (st : PState α) (s : Node), Inv st → Inv (update_state st s)) ∧
    (∀ st : PState α, Inv (reprime st)) ∧
    (∀ (fuel : Nat) (st : PState α) (eps : α) (st' : PState α),
      Inv st → compute_or_improve_path fuel st eps = some st' → Inv st') := by
  refine ⟨inv_update_state, inv_reprime, ?_⟩
  intro fuel st eps st' h heq
  unfold compute_or_improve_path at heq
  by_cases hflag : st.init_flag = true
  · rw [if_pos hflag] at heq
    have heq' : compute_loop fuel
        ({ st with epsilon := eps, init_flag := false } : PState α) = some st' := heq
    refine inv_compute_loop fuel _ st' ⟨?_, ?_, ?_⟩ heq'
    · intro p hp
      have hp' : p ∈ st.OPEN := hp
      show p.1 ∉ st.CLOSED
      exact h.1 p hp'
    · intro p hp
      have hp' : p ∈ st.OPEN := hp
      show p.1 ∉ st.INCONS
      exact h.2.1 p hp'
    · intro x hx
      have hx' : x ∈ st.INCONS := hx
      show x ∈ st.CLOSED
      exact h.2.2 x hx'
  · rw [if_neg hflag] at heq
    have heq' : compute_loop fuel
        (reprime ({ st with epsilon := eps } : PState α)) = some st' := heq
    exact inv_compute_loop fuel _ st' (inv_reprime _) heq'

/-- Witness for the amended C5 at the empty-queue state `c5wst`. -/
theorem c5_amended_witness :
    Inv (update_state c5wst 0) ∧ Inv (reprime c5wst) :=
  ⟨c5_amended_invariant.1 c5wst 0
    ⟨fun _ hp => absurd hp (List.not_mem_nil _),
     fun _ hp => absurd hp (List.not_mem_nil _),
     fun _ hs => absurd hs (List.not_mem_nil _)⟩,
   c5_amended_invariant.2.1 c5wst⟩

/-- The key of a state only depends on its `g`, `rhs`, `epsilon` and
heuristic-from-start values. -/
theorem key_eq_of_fields {st1 st2 : PState α} {s : Node}
    (hg : st1.g s = st2.g s) (hr : st1.rhs s = st2.rhs s)
    (he : st1.epsilon = st2.epsilon)
    (hh : st1.heursistic st1.s_start s = st2.heursistic st2.s_start s) :
    key st1 s = key st2 s := by
  unfold key
  rw [hg, hr, he, hh]

/-- `reconcile_rhs` leaves the `rhs` of every other state alone. -/
theorem reconcile_rhs_rhs_ne (st : PState α) (s x : Node) (hx : x ≠ s) :
    (reconcile_rhs st s).rhs x = st.rhs x := by
  unfold reconcile_rhs
  split_ifs with h
  · show Function.update st.rhs s (rhs_recompute st s) x = st.rhs x
    exact Function.update_noteq hx _ _
  · rfl

/-- `requeue` keeps every stored open key fresh. -/
theorem fresh_requeue (A : PState α) (s : Node)
    (hF : ∀ p ∈ A.OPEN, p.2 = key A p.1) : Fresh (requeue A s) := by
  unfold requeue
  by_cases hg : A.g s ≠ A.rhs s
  · rw [if_pos hg]
    by_cases hc : s ∉ A.CLOSED
    · rw [if_pos hc]
      intro p hp
      have hp' : p ∈ dictInsert A.OPEN s (key A s) := hp
      rcases mem_dictInsert hp' with hpe | ⟨hpl, _⟩
      · rw [hpe]
        rfl
      · exact hF p hpl
    · rw [if_neg hc]
      intro p hp
      have hp' : p ∈ A.OPEN := hp
      exact hF p hp'
  · rw [if_neg hg]
    exact hF

/-- `update_state` keeps every stored open key fresh. -/
theorem fresh_update_state (st : PState α) (s : Node) (hF : Fresh st) :
    Fresh (update_state st s) := by
  obtain ⟨rg, re, _, _, rs, _, _, rh, _, _, ro, _⟩ := reconcile_rhs_core st s
  refine fresh_requeue ({ reconcile_rhs st s with
    OPEN := dictPop (reconcile_rhs st s).OPEN s } : PState α) s ?_
  intro p hp
  have hp' : p ∈ dictPop (reconcile_rhs st s).OPEN s := hp
  rw [ro] at hp'
  obtain ⟨hpl, hps⟩ := mem_dictPop.mp hp'
  refine (hF p hpl).trans (key_eq_of_fields ?_ ?_ ?_ ?_)
  · exact (congrFun rg p.1).symm
  · exact (reconcile_rhs_rhs_ne st s p.1 hps).symm
  · exact re.symm
  · rw [rh, rs]

/-- Folding `update_state` keeps every stored open key fresh. -/
theorem fresh_foldl_update_state (l : List Node) :
    ∀ st : PState α, Fresh st → Fresh (l.foldl update_state st) := by
  induction l with
  | nil => exact fun st h => h
  | cons x xs ih =>
    intro st h
    simp only [List.foldl_cons]
    exact ih _ (fresh_update_state st x h)

/-- The overconsistent branch keeps open keys fresh (the expanded state is
no longer in `OPEN`, so rewriting its `g` leaves stored keys intact). -/
theorem fresh_expand_over (B : PState α) (s : Node)
    (hF : ∀ p ∈ B.OPEN, p.2 = key B p.1) (hs : ∀ p ∈ B.OPEN, p.1 ≠ s) :
    Fresh (expand_over B s) := by
  refine fresh_foldl_update_state _ _ ?_
  intro p hp
  have hp' : p ∈ B.OPEN := hp
  refine (hF p hp').trans (key_eq_of_fields ?_ rfl rfl rfl)
  exact (Function.update_noteq (hs p hp') _ _).symm

/-- The underconsistent branch keeps open keys fresh. -/
theorem fresh_expand_under (B : PState α) (s : Node)
    (hF : ∀ p ∈ B.OPEN, p.2 = key B p.1) (hs : ∀ p ∈ B.OPEN, p.1 ≠ s) :
    Fresh (expand_under B s) := by
  refine fresh_update_state _ _ (fresh_foldl_update_state _ _ ?_)
  intro p hp
  have hp' : p ∈ B.OPEN := hp
  refine (hF p hp').trans (key_eq_of_fields ?_ rfl rfl rfl)
  exact (Function.update_noteq (hs p hp') _ _).symm

/-- The loop body `expand` keeps every stored open key fresh. -/
theorem fresh_expand (st : PState α) (s : Node) (hF : Fresh st) :
    Fresh (expand st s) := by
  have hB : ∀ p ∈ (pop_and_visit st s).OPEN, p.2 = key (pop_and_visit st s) p.1 := by
    intro p hp
    have hp' : p ∈ dictPop st.OPEN s := hp
    exact hF p (mem_dictPop.mp hp').1
  have hs : ∀ p ∈ (pop_and_visit st s).OPEN, p.1 ≠ s := by
    intro p hp
    have hp' : p ∈ dictPop st.OPEN s := hp
    exact (mem_dictPop.mp hp').2
  show Fresh (if (pop_and_visit st s).g s > (pop_and_visit st s).rhs s then
    expand_over (pop_and_visit st s) s else expand_under (pop_and_visit st s) s)
  by_cases hgr : (pop_and_visit st s).g s > (pop_and_visit st s).rhs s
  · rw [if_pos hgr]
    exact fresh_expand_over _ _ hB hs
  · rw [if_neg hgr]
    exact fresh_expand_under _ _ hB hs

/-- `refresh_keys` makes every stored open key fresh outright. -/
theorem fresh_refresh_keys (B : PState α) : Fresh (refresh_keys B) := by
  intro p hp
  have hp' : p ∈ B.OPEN.map (fun (q : Node × Key α) => (q.1, key B q.1)) := hp
  rcases List.mem_map.mp hp' with ⟨q, _, hqe⟩
  rw [← hqe]
  rfl

/-- `reprime` makes every stored open key fresh outright. -/
theorem fresh_reprime (st : PState α) : Fresh (reprime st) := by
  intro p hp
  have hp' : p ∈ (refresh_keys (clear_incons (promote_incons st))).OPEN := hp
  exact fresh_refresh_keys (clear_incons (promote_incons st)) p hp'

/-- Folding `update_state` preserves `epsilon` and the first-call flag. -/
theorem foldl_update_state_flags (l : List Node) :
    ∀ st : PState α, (l.foldl update_state st).epsilon = st.epsilon ∧
      (l.foldl update_state st).init_flag = st.init_flag := by
  induction l with
  | nil => exact fun st => ⟨rfl, rfl⟩
  | cons x xs ih =>
    intro st
    simp only [List.foldl_cons]
    obtain ⟨he, hi⟩ := ih (update_state st x)
    obtain ⟨_, ue, _, _, _, _, _, _, ui, _⟩ := update_state_core st x
    exact ⟨he.trans ue, hi.trans ui⟩

/-- The loop body `expand` preserves `epsilon` and the first-call flag. -/
theorem expand_flags (st : PState α) (s : Node) :
    (expand st s).epsilon = st.epsilon ∧
    (expand st s).init_flag = st.init_flag := by
  show ((if (pop_and_visit st s).g s > (pop_and_visit st s).rhs s then
      expand_over (pop_and_visit st s) s
    else expand_under (pop_and_visit st s) s).epsilon = st.epsilon ∧
    (if (pop_and_visit st s).g s > (pop_and_visit st s).rhs s then
      expand_over (pop_and_visit st s) s
    else expand_under (pop_and_visit st s) s).init_flag = st.init_flag)
  by_cases hgr : (pop_and_visit st s).g s > (pop_and_visit st s).rhs s
  · rw [if_pos hgr]
    obtain ⟨he, hi⟩ := foldl_update_state_flags
      (get_neighbor ({ pop_and_visit st s with
        g := Function.update (pop_and_visit st s).g s ((pop_and_visit st s).rhs s),
        CLOSED := setAdd (pop_and_visit st s).CLOSED s } : PState α) s)
      ({ pop_and_visit st s with
        g := Function.update (pop_and_visit st s).g s ((pop_and_visit st s).rhs s),
        CLOSED := setAdd (pop_and_visit st s).CLOSED s } : PState α)
    exact ⟨he, hi⟩
  · rw [if_neg hgr]
    obtain ⟨he, hi⟩ := foldl_update_state_flags
      (get_neighbor ({ pop_and_visit st s with
        g := Function.update (pop_and_visit st s).g s ⊤ } : PState α) s)
      ({ pop_and_visit st s with
        g := Function.update (pop_and_visit st s).g s ⊤ } : PState α)
    obtain ⟨_, ue, _, _, _, _, _, _, ui, _⟩ := update_state_core
      ((get_neighbor ({ pop_and_visit st s with
        g := Function.update (pop_and_visit st s).g s ⊤ } : PState α) s).foldl
        update_state ({ pop_and_visit st s with
        g := Function.update (pop_and_visit st s).g s ⊤ } : PState α)) s
    exact ⟨ue.trans he, ui.trans hi⟩

/-- When the main loop returns, the returned state satisfies the break
test, its open keys are fresh if they were on entry, and `epsilon` and the
first-call flag are those of the entry state. -/
theorem compute_loop_post : ∀ (n : Nat) (st st' : PState α),
    compute_loop n st = some st' →
    (Fresh st → Fresh st') ∧ BreakCond st' ∧ st'.epsilon = st.epsilon ∧
      st'.init_flag = st.init_flag := by
  intro n
  induction n with
  | zero => intro st st' heq; cases heq
  | succ n ih =>
    intro st st' heq
    simp only [compute_loop] at heq
    by_cases hb : key_lt (smallest_key st.OPEN).2 (key st st.s_start) = false ∧
        st.rhs st.s_start = st.g st.s_start
    · rw [if_pos hb] at heq
      cases heq
      exact ⟨fun h => h, hb, rfl, rfl⟩
    · rw [if_neg hb] at heq
      rcases hsk : (smallest_key st.OPEN).1 with _ | s
      · rw [hsk] at heq
        simp at heq
      · rw [hsk] at heq
        have heq2 : compute_loop n (expand st s) = some st' := heq
        obtain ⟨pf, pb, pe, pi⟩ := ih (expand st s) st' heq2
        obtain ⟨ee, ei⟩ := expand_flags st s
        exact ⟨fun hF => pf (fresh_expand st s hF), pb, pe.trans ee, pi.trans ei⟩

/-- When `compute_or_improve_path` returns, the returned state satisfies
the break test, has fresh open keys, carries the `epsilon` that was passed,
and has left first-call mode.  (On a first call, the freshness of the
constructor-made open entry and the constructor's `epsilon` argument are
assumed, exactly as `__init__` establishes them.) -/
theorem compute_post (fuel : Nat) (st : PState α) (eps : α) (st' : PState α)
    (hpre : st.init_flag = true → (Fresh st ∧ eps = st.epsilon))
    (heq : compute_or_improve_path fuel st eps = some st') :
    Fresh st' ∧ BreakCond st' ∧ st'.epsilon = eps ∧ st'.init_flag = false := by
  unfold compute_or_improve_path at heq
  by_cases hflag : st.init_flag = true
  · rw [if_pos hflag] at heq
    have heq' : compute_loop fuel
        ({ st with epsilon := eps, init_flag := false } : PState α) = some st' := heq
    obtain ⟨pf, pb, pe, pi⟩ := compute_loop_post fuel _ st' heq'
    obtain ⟨hFst, heps⟩ := hpre hflag
    refine ⟨pf ?_, pb, pe, pi⟩
    intro p hp
    have hp' : p ∈ st.OPEN := hp
    refine (hFst p hp').trans (key_eq_of_fields rfl rfl ?_ rfl)
    exact heps.symm
  · rw [if_neg hflag] at heq
    have heq' : compute_loop fuel
        (reprime ({ st with epsilon := eps } : PState α)) = some st' := heq
    obtain ⟨pf, pb, pe, pi⟩ := compute_loop_post fuel _ st' heq'
    obtain ⟨_, _, re2, _, _, _, _, _, _, ri2, _, _⟩ :=
      reprime_core ({ st with epsilon := eps } : PState α)
    have hfl : st.init_flag = false := by
      revert hflag
      cases st.init_flag <;> simp
    exact ⟨pf (fresh_reprime _), pb, pe.trans re2, pi.trans (ri2.trans hfl)⟩

/-- A repeated call on a returned state with empty `INCONS` and unchanged
`epsilon` only clears `CLOSED`: the re-priming is the identity on the open
dict (the stored keys are already fresh) and the first break test fires at
once. -/
theorem second_call_noop (st : PState α) (hIN : st.INCONS = []) (hF : Fresh st)
    (hB : BreakCond st) (hflag : st.init_flag = false) (n : Nat) :
    compute_or_improve_path (n + 1) st st.epsilon = some (clear_closed st) := by
  have h1 : promote_incons st = st := by
    unfold promote_incons
    have hfold : st.INCONS.foldl (fun o s => dictInsert o s (key st s)) st.OPEN =
        st.OPEN := by
      rw [hIN, List.foldl_nil]
    rw [hfold]
  have h2 : clear_incons st = st := by
    unfold clear_incons
    rw [← hIN]
  have h3 : refresh_keys st = st := by
    unfold refresh_keys
    have hfun : ∀ p ∈ st.OPEN,
        (fun (q : Node × Key α) => (q.1, key st q.1)) p = id p := by
      intro p hp
      simp only [id]
      rw [← hF p hp]
    rw [List.map_congr_left hfun, List.map_id]
  have h4 : reprime st = clear_closed st := by
    unfold reprime
    rw [h1, h2, h3]
  have hnot : ¬(st.init_flag = true) := by
    rw [hflag]
    simp
  have heta : ({ st with epsilon := st.epsilon } : PState α) = st := rfl
  show compute_loop (n + 1)
    (if st.init_flag then { st with epsilon := st.epsilon, init_flag := false }
     else reprime { st with epsilon := st.epsilon }) = some (clear_closed st)
  rw [if_neg hnot, heta, h4]
  have hbc : key_lt (smallest_key (clear_closed st).OPEN).2
      (key (clear_closed st) (clear_closed st).s_start) = false ∧
      (clear_closed st).rhs (clear_closed st).s_start =
        (clear_closed st).g (clear_closed st).s_start := hB
  simp only [compute_loop]
  rw [if_pos hbc]

/-- C6, amended: if `compute_or_improve_path` returns with `INCONS` empty,
a repeated call with the same `epsilon` and no intervening `update_graph`
merely clears `CLOSED` and leaves the extracted path unchanged (the general
claim fails when `INCONS` is non-empty — see the counterexample).  The
first-call hypothesis states exactly what `__init__` establishes: the one
open entry holds its freshly computed key and the passed `epsilon` is the
stored one. -/
theorem c6_amended_idempotent_when_incons_empty :
    ∀ (fuel : Nat) (st : PState α) (eps : α) (st' : PState α) (n m : Nat),
    (st.init_flag = true → (Fresh st ∧ eps = st.epsilon)) →
    compute_or_improve_path fuel st eps = some st' →
    st'.INCONS = [] →
    compute_or_improve_path (n + 1) st' eps = some (clear_closed st') ∧
    extract_path (clear_closed st') m = extract_path st' m := by
  intro fuel st eps st' n m hpre heq hIN
  obtain ⟨hF', hB', heps, hflag⟩ := compute_post fuel st eps st' hpre heq
  have h2 := second_call_noop st' hIN hF' hB' hflag n
  rw [heps] at h2
  exact ⟨h2, rfl⟩

/-- Witness for the amended C6: on the unreachable-goal example the second
call returns immediately and the extracted result is unchanged. -/
theorem c6_amended_witness :
    compute_or_improve_path 1 c6wres 1 = some (clear_closed c6wres) ∧
    extract_path (clear_closed c6wres) 5 = extract_path c6wres 5 :=
  c6_amended_idempotent_when_incons_empty 3 exUst 1 c6wres 0 5
    (fun h => absurd h (by decide)) (by rfl) (by rfl)

end AdaStar
